import Mathlib

/-!
# Verification of the ratelimit-sdk core

Shallow embedding of the ratelimit-sdk TypeScript sources:

* `src/localKv.ts` — the `LocalKV` reference key-value store (value map,
  expiration map and pending `setTimeout` callbacks);
* `src/ratelimit.ts` — the three admission algorithms (`fixedWindow`,
  `slidingWindow`, `tokenBucket`) of the `Ratelimit` class;
* `src/internal.ts` — the `ms` duration parser.

JavaScript numbers are modelled as exact rationals (`ℚ`), integer counters as
`ℤ`; `Math.floor` is `Int.floor`, the JS `%` remainder is truncated remainder,
and `Number.prototype.toFixed(1)` followed by `Number(...)` is rounding to one
decimal with ties going up. Fallible operations return `Except`/`Option`.
-/

namespace Ratelimit

/-! ## JavaScript numeric-string primitives -/

/-- Decimal digit characters (code points 48–57). -/
def isDigitChar (c : Char) : Bool := 48 ≤ c.toNat && c.toNat ≤ 57

/-- The whitespace characters relevant to `String.prototype.trim`, `parseInt`
and the `\s` regex class (ASCII subset: space, tab, LF, CR). -/
def isSpaceJS (c : Char) : Bool :=
  c.toNat = 32 || c.toNat = 9 || c.toNat = 10 || c.toNat = 13

/-- Numeric value of a digit character. -/
def digitVal (c : Char) : ℕ := c.toNat - 48

/-- Digit character of a value `< 10`. -/
def digitChar (d : ℕ) : Char := Char.ofNat (48 + d)

/-- Fold a digit list into the natural number it denotes (most significant
digit first), as `parseInt` does once the digit run is isolated. -/
def digitsToNat (ds : List Char) : ℕ :=
  ds.foldl (fun a c => 10 * a + digitVal c) 0

/-- Decimal digits of `n`, most significant first (fuel-structured so that it
reduces in the kernel); mirrors `Number.prototype.toString` for naturals. -/
def natDigitsAux : ℕ → ℕ → List Char
  | 0, _ => []
  | fuel + 1, n =>
    if n < 10 then [digitChar n]
    else natDigitsAux fuel (n / 10) ++ [digitChar (n % 10)]

/-- Decimal digits of `n`, most significant first. -/
def natDigits (n : ℕ) : List Char := natDigitsAux (n + 1) n

/-- `Number.prototype.toString` for naturals. -/
def natToString (n : ℕ) : String := String.mk (natDigits n)

/-- `Number.prototype.toString` for integers. -/
def intToString (n : ℤ) : String :=
  if n < 0 then String.mk ('-' :: natDigits n.natAbs) else natToString n.toNat

/-- Digit-run part of `parseInt`, after whitespace and sign handling. -/
def parseIntCore (cs : List Char) (neg : Bool) : Option ℤ :=
  let ds := cs.takeWhile isDigitChar
  if ds.isEmpty then none
  else some (if neg then -(digitsToNat ds : ℤ) else (digitsToNat ds : ℤ))

/-- `parseInt(s, 10)`: skip leading whitespace, optional sign, then the
leading digit run; `none` models the `NaN` result when no digit is found. -/
def parseIntJS (s : String) : Option ℤ :=
  match s.data.dropWhile isSpaceJS with
  | '-' :: rest => parseIntCore rest true
  | '+' :: rest => parseIntCore rest false
  | cs => parseIntCore cs false

/-! ### Round-trip facts about the decimal rendering -/

theorem natDigitsAux_ne_nil {fuel n : ℕ} (h : n < fuel) :
    natDigitsAux fuel n ≠ [] := by
  cases fuel with
  | zero => omega
  | succ f =>
    unfold natDigitsAux
    split
    · simp
    · simp

theorem natDigits_ne_nil (n : ℕ) : natDigits n ≠ [] :=
  natDigitsAux_ne_nil (Nat.lt_succ_self n)

theorem digitVal_digitChar {d : ℕ} (h : d < 10) : digitVal (digitChar d) = d := by
  interval_cases d <;> decide

theorem isDigitChar_digitChar {d : ℕ} (h : d < 10) :
    isDigitChar (digitChar d) = true := by
  interval_cases d <;> decide

theorem natDigitsAux_all_digit {fuel n : ℕ} (h : n < fuel) :
    ∀ c ∈ natDigitsAux fuel n, isDigitChar c = true := by
  induction fuel generalizing n with
  | zero => omega
  | succ f ih =>
    intro c hc
    unfold natDigitsAux at hc
    split at hc
    · rename_i hn
      simp at hc
      subst hc
      exact isDigitChar_digitChar hn
    · rename_i hn
      rw [List.mem_append] at hc
      rcases hc with hc | hc
      · exact ih (by omega : n / 10 < f) c hc
      · simp at hc
        subst hc
        exact isDigitChar_digitChar (Nat.mod_lt _ (by omega))

theorem natDigits_all_digit (n : ℕ) :
    ∀ c ∈ natDigits n, isDigitChar c = true :=
  natDigitsAux_all_digit (Nat.lt_succ_self n)

theorem foldl_digits_append (a : ℕ) (xs : List Char) (c : Char) :
    (xs ++ [c]).foldl (fun a c => 10 * a + digitVal c) a =
      10 * xs.foldl (fun a c => 10 * a + digitVal c) a + digitVal c := by
  rw [List.foldl_append]
  rfl

theorem digitsToNat_natDigitsAux {fuel n : ℕ} (h : n < fuel) :
    digitsToNat (natDigitsAux fuel n) = n := by
  induction fuel generalizing n with
  | zero => omega
  | succ f ih =>
    unfold natDigitsAux
    split
    · rename_i hn
      show digitsToNat [digitChar n] = n
      simp [digitsToNat, digitVal_digitChar hn]
    · rename_i hn
      show digitsToNat (natDigitsAux f (n / 10) ++ [digitChar (n % 10)]) = n
      unfold digitsToNat
      rw [foldl_digits_append]
      have h1 : digitsToNat (natDigitsAux f (n / 10)) = n / 10 :=
        ih (by omega)
      unfold digitsToNat at h1
      rw [h1, digitVal_digitChar (Nat.mod_lt _ (by omega))]
      omega

theorem digitsToNat_natDigits (n : ℕ) : digitsToNat (natDigits n) = n :=
  digitsToNat_natDigitsAux (Nat.lt_succ_self n)

theorem not_space_of_digit {c : Char} (h : isDigitChar c = true) :
    isSpaceJS c = false := by
  unfold isDigitChar at h
  unfold isSpaceJS
  simp only [Bool.and_eq_true, decide_eq_true_eq] at h
  simp only [Bool.or_eq_false_iff, decide_eq_false_iff_not]
  omega

theorem dropWhile_eq_self_of_head {p : Char → Bool} {c : Char} {cs : List Char}
    (h : p c = false) : (c :: cs).dropWhile p = c :: cs := by
  simp [List.dropWhile, h]

theorem takeWhile_all {p : Char → Bool} {cs : List Char}
    (h : ∀ c ∈ cs, p c = true) : cs.takeWhile p = cs := by
  induction cs with
  | nil => rfl
  | cons x xs ih =>
    have hx : p x = true := h x (List.mem_cons_self _ _)
    have hxs := ih fun c hc => h c (List.mem_cons_of_mem _ hc)
    simp [List.takeWhile, hx, hxs]

theorem parseIntCore_digits {cs : List Char} (hall : ∀ c ∈ cs, isDigitChar c = true)
    (hne : cs ≠ []) (neg : Bool) :
    parseIntCore cs neg =
      some (if neg then -(digitsToNat cs : ℤ) else (digitsToNat cs : ℤ)) := by
  simp only [parseIntCore, takeWhile_all hall, List.isEmpty_iff, hne, if_false]

theorem dropWhile_space_all_digits {cs : List Char}
    (hall : ∀ c ∈ cs, isDigitChar c = true) : cs.dropWhile isSpaceJS = cs := by
  cases cs with
  | nil => rfl
  | cons c cs' =>
    exact dropWhile_eq_self_of_head
      (not_space_of_digit (hall c (List.mem_cons_self _ _)))

theorem parseIntJS_all_digits {cs : List Char}
    (hall : ∀ c ∈ cs, isDigitChar c = true) (hne : cs ≠ []) :
    parseIntJS (String.mk cs) = some (digitsToNat cs : ℤ) := by
  unfold parseIntJS
  show (match cs.dropWhile isSpaceJS with
    | '-' :: rest => parseIntCore rest true
    | '+' :: rest => parseIntCore rest false
    | cs => parseIntCore cs false) = some (digitsToNat cs : ℤ)
  rw [dropWhile_space_all_digits hall]
  cases h : cs with
  | nil => exact absurd h hne
  | cons c cs' =>
    subst h
    have hc : isDigitChar c = true := hall c (List.mem_cons_self _ _)
    have h1 : c ≠ '-' := by intro hh; subst hh; revert hc; decide
    have h2 : c ≠ '+' := by intro hh; subst hh; revert hc; decide
    have hstep : (match c :: cs' with
        | '-' :: rest => parseIntCore rest true
        | '+' :: rest => parseIntCore rest false
        | cs => parseIntCore cs false) = parseIntCore (c :: cs') false := by
      split
      · rename_i heq
        rw [List.cons.injEq] at heq
        exact absurd heq.1 h1
      · rename_i heq
        rw [List.cons.injEq] at heq
        exact absurd heq.1 h2
      · rfl
    rw [hstep, parseIntCore_digits hall hne false]
    simp

theorem parseIntJS_neg_digits {cs : List Char}
    (hall : ∀ c ∈ cs, isDigitChar c = true) (hne : cs ≠ []) :
    parseIntJS (String.mk ('-' :: cs)) = some (-(digitsToNat cs : ℤ)) := by
  unfold parseIntJS
  show (match ('-' :: cs).dropWhile isSpaceJS with
    | '-' :: rest => parseIntCore rest true
    | '+' :: rest => parseIntCore rest false
    | cs => parseIntCore cs false) = some (-(digitsToNat cs : ℤ))
  rw [dropWhile_eq_self_of_head (by decide : isSpaceJS '-' = false)]
  show parseIntCore cs true = some (-(digitsToNat cs : ℤ))
  rw [parseIntCore_digits hall hne true]
  simp

/-- `parseInt` undoes the decimal rendering of any integer. -/
theorem parseIntJS_intToString (n : ℤ) : parseIntJS (intToString n) = some n := by
  unfold intToString
  split
  · rename_i hneg
    rw [parseIntJS_neg_digits (natDigits_all_digit n.natAbs) (natDigits_ne_nil _)]
    rw [digitsToNat_natDigits]
    congr 1
    omega
  · rename_i hpos
    unfold natToString
    rw [parseIntJS_all_digits (natDigits_all_digit n.toNat) (natDigits_ne_nil _)]
    rw [digitsToNat_natDigits]
    congr 1
    omega

/-! ## JavaScript arithmetic helpers -/

/-- Truncation toward zero, as JS number-to-integer conversion inside `%`. -/
def jsTrunc (q : ℚ) : ℤ := if 0 ≤ q then ⌊q⌋ else ⌈q⌉

/-- The JS `%` remainder: `x - y * trunc(x / y)`. -/
def jsRem (x y : ℚ) : ℚ := x - y * (jsTrunc (x / y) : ℚ)

/-- `Number(x.toFixed(1))`: round to one decimal, ties toward the larger
value, then read the decimal string back as a number. -/
def toFixed1 (q : ℚ) : ℚ := (round (10 * q) : ℤ) / 10

theorem jsTrunc_eq_floor {q : ℚ} (h : 0 ≤ q) : jsTrunc q = ⌊q⌋ := by
  simp [jsTrunc, h]

theorem jsRem_eq_fract {x y : ℚ} (hx : 0 ≤ x) (hy : 0 < y) :
    jsRem x y = y * Int.fract (x / y) := by
  unfold jsRem
  rw [jsTrunc_eq_floor (div_nonneg hx (le_of_lt hy))]
  rw [Int.fract]
  field_simp

theorem jsRem_div_bounds {x y : ℚ} (hx : 0 ≤ x) (hy : 0 < y) :
    0 ≤ jsRem x y / y ∧ jsRem x y / y < 1 := by
  rw [jsRem_eq_fract hx hy]
  rw [mul_div_cancel_left₀ _ (ne_of_gt hy)]
  exact ⟨Int.fract_nonneg _, Int.fract_lt_one _⟩

/-! ## RatelimitResponse and the admission algorithms (src/ratelimit.ts)

Each algorithm is split into a pure decision function over the values the
store interaction produced (`current` for the window algorithms, the parsed
`tokens`/`lastRefill` pair for the token bucket) and, further below, a wrapper
that executes the store operations against the `LocalKV` model. -/

/-- The `RatelimitResponse` record (success, limit, remaining, reset). -/
structure RLResponse where
  success : Bool
  limit : ℚ
  remaining : ℚ
  reset : ℚ
  deriving DecidableEq, Repr

/-- `Ratelimit.fixedWindow` decision, given the counter value `current`
returned by `kv.incr`:

    const bucket = Math.floor(now / windowDuration);
    const success = current <= tokens;
    const remaining = Math.max(0, tokens - current);
    const reset = (bucket + 1) * windowDuration;  -/
def fixedWindowResponse (tokens windowMs now : ℚ) (current : ℤ) : RLResponse :=
  let bucket : ℤ := ⌊now / windowMs⌋
  { success := decide ((current : ℚ) ≤ tokens)
    limit := tokens
    remaining := max 0 (tokens - (current : ℚ))
    reset := ((bucket : ℚ) + 1) * windowMs }

/-- `Ratelimit.slidingWindow` decision, given the incremented current-window
counter `current` and the previous-window counter `previousCount`:

    const percentage = (now % windowDuration) / windowDuration;
    const average = previousCount * (1 - percentage) + current;
    if (average > tokens) return { success: false, ..., remaining: 0, ... };
    const remaining = Number((tokens - average).toFixed(1));
    return { success: true, ..., remaining: Math.max(0, remaining), ... };  -/
def slidingWindowResponse (tokens windowMs now : ℚ) (current previousCount : ℤ) :
    RLResponse :=
  let currentWindow : ℤ := ⌊now / windowMs⌋
  let percentage : ℚ := jsRem now windowMs / windowMs
  let average : ℚ := (previousCount : ℚ) * (1 - percentage) + (current : ℚ)
  if average > tokens then
    { success := false
      limit := tokens
      remaining := 0
      reset := ((currentWindow : ℚ) + 1) * windowMs }
  else
    { success := true
      limit := tokens
      remaining := max 0 (toFixed1 (tokens - average))
      reset := ((currentWindow : ℚ) + 1) * windowMs }

/-- One key-value store operation issued by the token bucket; the `hmset`
payload keeps the numeric values whose decimal renderings the source
stores (`tokensToSet.toString()`, `refillDate.toString()`). -/
inductive KVEffect where
  | hmget (key : String) (fields : List String)
  | hmset (key : String) (fields : List (String × ℚ))
  | pexpire (key : String) (milliseconds : ℚ)
  deriving DecidableEq, Repr

/-- The key an effect addresses. -/
def KVEffect.keyOf : KVEffect → String
  | .hmget k _ => k
  | .hmset k _ => k
  | .pexpire k _ => k

/-- Result of one `Ratelimit.tokenBucket` decision: the response, the
intermediate values of the computation and the store-operation trace. -/
structure TBResult where
  resp : RLResponse
  newTokens : ℚ
  tokensToSet : ℚ
  refillDate : ℚ
  trace : List KVEffect
  deriving DecidableEq, Repr

/-- `Ratelimit.tokenBucket` decision, given the parsed stored record
(`tokens`, `lastRefill`); transcribes:

    const key = [ctx.namespace, identifier, "bucket"].join(":");
    const timeSinceLastRefill = now - lastRefill;
    const tokensToAdd = Math.floor(timeSinceLastRefill / refillDuration) * refillRate;
    const newTokens = Math.min(maxTokens, tokens + tokensToAdd);
    const success = newTokens >= 1;
    const tokensToSet = success ? newTokens - 1 : newTokens;
    const refillDate = tokensToAdd > 0 ? now : lastRefill;
    await ctx.kv.hmset(key, { tokens: ..., lastRefill: ... });
    await ctx.kv.pexpire(key, refillDuration * 2);
    const remaining = Math.max(0, tokensToSet);
    const reset = refillDate + refillDuration;  -/
def tokenBucketStep (refillRate refillDuration maxTokens : ℚ)
    (ns identifier : String) (now tokens lastRefill : ℚ) : TBResult :=
  let key := ns ++ ":" ++ identifier ++ ":" ++ "bucket"
  let timeSinceLastRefill := now - lastRefill
  let tokensToAdd : ℚ := (⌊timeSinceLastRefill / refillDuration⌋ : ℚ) * refillRate
  let newTokens := min maxTokens (tokens + tokensToAdd)
  let success := decide (1 ≤ newTokens)
  let tokensToSet := if 1 ≤ newTokens then newTokens - 1 else newTokens
  let refillDate := if tokensToAdd > 0 then now else lastRefill
  { resp :=
      { success := success
        limit := maxTokens
        remaining := max 0 tokensToSet
        reset := refillDate + refillDuration }
    newTokens := newTokens
    tokensToSet := tokensToSet
    refillDate := refillDate
    trace :=
      [ .hmget key ["tokens", "lastRefill"],
        .hmset key [("tokens", tokensToSet), ("lastRefill", refillDate)],
        .pexpire key (refillDuration * 2) ] }

/-! ## The LocalKV reference store (src/localKv.ts)

The store is a map from key to string (modelled as a function into
`Option String`), the expiration map sends a key to the id of its armed
`setTimeout`, and `timers` keeps every scheduled callback that was ever
created and not yet fired — `clearTimeout` marks it cancelled but the del
path never does, which is exactly what claim C9 is about.  `clock` is the
fake-timer wall clock; `advanceTo` plays the role of
`vi.advanceTimersByTime`, executing every due, uncancelled callback
(`() => { this.store.delete(key); this.expirations.delete(key); }`). -/

/-- A scheduled `setTimeout` callback of `LocalKV.setExpiration`. -/
structure TimerCb where
  tid : ℕ
  key : String
  fireAt : ℚ
  cancelled : Bool
  deriving DecidableEq, Repr

/-- The `LocalKV` state. -/
structure LocalKV where
  store : String → Option String
  expirations : String → Option ℕ
  timers : List TimerCb
  nextId : ℕ
  clock : ℚ

/-- Point update of a string-keyed map. -/
def fupd {α : Type} (f : String → Option α) (k : String) (v : Option α) :
    String → Option α :=
  fun k' => if k' = k then v else f k'

/-- `new LocalKV()` at fake-timer time 0. -/
def kvEmpty : LocalKV :=
  { store := fun _ => none
    expirations := fun _ => none
    timers := []
    nextId := 0
    clock := 0 }

/-- `clearTimeout` on the timer with id `tid`. -/
def clearTimeoutId (ts : List TimerCb) (tid : ℕ) : List TimerCb :=
  ts.map fun t => if t.tid = tid then { t with cancelled := true } else t

/-- `LocalKV.setExpiration(key, ms)`: cancel any pending timer recorded for
`key`, then schedule deletion of value and expiration entry after `ms`. -/
def setExpiration (s : LocalKV) (key : String) (ms : ℚ) : LocalKV :=
  let ts :=
    match s.expirations key with
    | some tid => clearTimeoutId s.timers tid
    | none => s.timers
  { store := s.store
    expirations := fupd s.expirations key (some s.nextId)
    timers := ts ++ [⟨s.nextId, key, s.clock + ms, false⟩]
    nextId := s.nextId + 1
    clock := s.clock }

/-- `LocalKV.set(key, value, options?)`; a `px` of `0` is falsy in
`if (options?.px)` and arms nothing. -/
def kvSet (s : LocalKV) (key value : String) (px : Option ℚ) : LocalKV :=
  let s' := { s with store := fupd s.store key (some value) }
  match px with
  | some p => if p = 0 then s' else setExpiration s' key p
  | none => s'

/-- `LocalKV.get(key)`. -/
def kvGet (s : LocalKV) (key : String) : Option String := s.store key

/-- `LocalKV.incrby(key, increment)`; the `Error` thrown on a non-numeric
stored value is the `.error` case, and aborts without storing. -/
def kvIncrby (s : LocalKV) (key : String) (increment : ℤ) :
    Except String (ℤ × LocalKV) :=
  let current := (s.store key).getD "0"
  match parseIntJS current with
  | none => .error ("Cannot increment non-numeric value: " ++ current)
  | some parsed =>
    let next := parsed + increment
    .ok (next, { s with store := fupd s.store key (some (intToString next)) })

/-- `LocalKV.incr(key)` = `incrby(key, 1)`. -/
def kvIncr (s : LocalKV) (key : String) : Except String (ℤ × LocalKV) :=
  kvIncrby s key 1

/-- `LocalKV.pexpire(key, milliseconds)`: 0 on an absent key, else re-arm. -/
def kvPexpire (s : LocalKV) (key : String) (ms : ℚ) : ℤ × LocalKV :=
  if (s.store key).isNone then (0, s)
  else (1, setExpiration s key ms)

/-- `LocalKV.del(...keys)`: drops store values and expiration entries, never
touching the scheduled callbacks; returns the argument count. -/
def kvDel (s : LocalKV) (keys : List String) : ℤ × LocalKV :=
  ( (keys.length : ℤ),
    { s with
      store := keys.foldl (fun f k => fupd f k none) s.store
      expirations := keys.foldl (fun f k => fupd f k none) s.expirations } )

/-- Advance the fake clock to `tNew`, firing every due uncancelled callback;
each fired callback deletes its key from the value and expiration maps. -/
def advanceTo (s : LocalKV) (tNew : ℚ) : LocalKV :=
  let due := s.timers.filter fun t => !t.cancelled && decide (t.fireAt ≤ tNew)
  let rest := s.timers.filter fun t => !(!t.cancelled && decide (t.fireAt ≤ tNew))
  { store := due.foldl (fun f t => fupd f t.key none) s.store
    expirations := due.foldl (fun f t => fupd f t.key none) s.expirations
    timers := rest
    nextId := s.nextId
    clock := tNew }

theorem fupd_same {α : Type} (f : String → Option α) (k : String) (v : Option α) :
    fupd f k v k = v := by
  simp [fupd]

theorem fupd_other {α : Type} (f : String → Option α) {k k' : String}
    (v : Option α) (h : k' ≠ k) : fupd f k v k' = f k' := by
  simp [fupd, h]

/-- A fold of none-updates yields `none` exactly on the touched keys. -/
theorem foldl_fupd_none {α : Type} (l : List String) (f : String → Option α)
    (k : String) :
    (l.foldl (fun f k => fupd f k none) f) k =
      if k ∈ l then none else f k := by
  induction l generalizing f with
  | nil => simp
  | cons x xs ih =>
    simp only [List.foldl_cons, ih]
    by_cases hx : k = x
    · subst hx
      simp [fupd_same]
    · rw [fupd_other _ _ hx]
      simp [Ne.symm hx, hx]

/-- Same statement for timer folds: firing callbacks erases exactly the keys
of the fired timers. -/
theorem foldl_fupd_timer_none {α : Type} (l : List TimerCb)
    (f : String → Option α) (k : String) :
    (l.foldl (fun f t => fupd f t.key none) f) k =
      if k ∈ l.map TimerCb.key then none else f k := by
  induction l generalizing f with
  | nil => simp
  | cons x xs ih =>
    simp only [List.foldl_cons, ih, List.map_cons, List.mem_cons]
    by_cases hx : k = x.key
    · subst hx
      simp [fupd_same]
    · rw [fupd_other _ _ hx]
      simp [hx]

/-! ## Fixed window against the LocalKV store

`Ratelimit.fixedWindow(tokens, window)` executed at time `now` against the
local store:

    const now = Date.now();
    const bucket = Math.floor(now / windowDuration);
    const key = [ctx.namespace, identifier, bucket].join(":");
    const current = await ctx.kv.incr(key);
    if (current === 1) { await ctx.kv.pexpire(key, windowDuration); }

The wall clock of the state is brought up to `now` first, mirroring that
`Date.now()` and the store share one (fake-timer) clock. -/

/-- The fixed-window decision key `namespace:identifier:bucket`. -/
def fixedWindowKey (ns identifier : String) (bucket : ℤ) : String :=
  ns ++ ":" ++ identifier ++ ":" ++ intToString bucket

/-- One `limit(identifier)` call under `Ratelimit.fixedWindow`. -/
def fixedWindowCall (tokens windowMs : ℚ) (ns identifier : String) (now : ℚ)
    (s : LocalKV) : Except String (RLResponse × LocalKV) :=
  let s0 := { s with clock := now }
  let bucket : ℤ := ⌊now / windowMs⌋
  let key := fixedWindowKey ns identifier bucket
  match kvIncr s0 key with
  | .error e => .error e
  | .ok (current, s1) =>
    let s2 := if current = 1 then (kvPexpire s1 key windowMs).2 else s1
    .ok (fixedWindowResponse tokens windowMs now current, s2)

/-- A sequence of `limit` calls at the given times. -/
def fixedWindowRun (tokens windowMs : ℚ) (ns identifier : String) :
    List ℚ → LocalKV → Except String (List RLResponse × LocalKV)
  | [], s => .ok ([], s)
  | t :: ts, s =>
    match fixedWindowCall tokens windowMs ns identifier t s with
    | .error e => .error e
    | .ok (r, s') =>
      match fixedWindowRun tokens windowMs ns identifier ts s' with
      | .error e => .error e
      | .ok (rs, s'') => .ok (r :: rs, s'')

theorem setExpiration_store (s : LocalKV) (key : String) (ms : ℚ) :
    (setExpiration s key ms).store = s.store := rfl

theorem kvPexpire_store (s : LocalKV) (key : String) (ms : ℚ) :
    (kvPexpire s key ms).2.store = s.store := by
  unfold kvPexpire
  split
  · rfl
  · rfl

/-- `kvIncr` on a key holding count `c` (absent meaning `0`) returns `c + 1`
and stores its rendering. -/
theorem kvIncr_count (s : LocalKV) (key : String) (c : ℕ)
    (hkey : s.store key = if c = 0 then none else some (intToString c)) :
    kvIncr s key =
      .ok ((c : ℤ) + 1,
        { s with store := fupd s.store key (some (intToString ((c : ℤ) + 1))) }) := by
  unfold kvIncr kvIncrby
  by_cases hc : c = 0
  · subst hc
    rw [if_pos rfl] at hkey
    simp only [hkey, Option.getD_none]
    have hparse : parseIntJS "0" = some 0 := by
      have := parseIntJS_intToString 0
      simpa using this
    simp only [hparse]
    norm_num
  · simp only [if_neg hc] at hkey
    simp only [hkey, Option.getD_some, parseIntJS_intToString]

/-- Effect of one fixed-window call on a store that holds count `c` under the
decision key (`c = 0` meaning the key is absent). -/
theorem fixedWindowCall_spec (tokens windowMs : ℚ) (ns identifier : String)
    (now : ℚ) (s : LocalKV) (c : ℕ)
    (hkey : s.store (fixedWindowKey ns identifier ⌊now / windowMs⌋) =
      if c = 0 then none else some (intToString c)) :
    ∃ s' : LocalKV,
      fixedWindowCall tokens windowMs ns identifier now s =
        .ok (fixedWindowResponse tokens windowMs now ((c : ℤ) + 1), s') ∧
      s'.store (fixedWindowKey ns identifier ⌊now / windowMs⌋) =
        some (intToString ((c : ℤ) + 1)) ∧
      (∀ k, k ≠ fixedWindowKey ns identifier ⌊now / windowMs⌋ →
        s'.store k = s.store k) := by
  have hincr := kvIncr_count { s with clock := now }
    (fixedWindowKey ns identifier ⌊now / windowMs⌋) c hkey
  unfold fixedWindowCall
  simp only [hincr]
  refine ⟨_, rfl, ?_, ?_⟩
  · split
    · rw [kvPexpire_store]
      simp [fupd_same]
    · simp [fupd_same]
  · intro k hne
    split
    · rw [kvPexpire_store]
      exact fupd_other _ _ hne
    · exact fupd_other _ _ hne

/-- A run of fixed-window calls inside one time window `b`, starting from a
store holding count `c` under the decision key, produces the arithmetic
sequence of responses for counts `c+1, c+2, …`. -/
theorem fixedWindowRun_spec (tokens windowMs : ℚ) (ns identifier : String)
    (b : ℤ) (ts : List ℚ) :
    ∀ (c : ℕ) (s : LocalKV),
      (∀ t ∈ ts, ⌊t / windowMs⌋ = b) →
      s.store (fixedWindowKey ns identifier b) =
        (if c = 0 then none else some (intToString c)) →
      ∃ s', fixedWindowRun tokens windowMs ns identifier ts s =
        .ok ((List.range ts.length).map fun i =>
          { success := decide (((c + i + 1 : ℕ) : ℚ) ≤ tokens)
            limit := tokens
            remaining := max 0 (tokens - ((c + i + 1 : ℕ) : ℚ))
            reset := ((b : ℚ) + 1) * windowMs }, s') := by
  induction ts with
  | nil =>
    intro c s _ _
    exact ⟨s, rfl⟩
  | cons t ts ih =>
    intro c s hwin hkey
    have hb : ⌊t / windowMs⌋ = b := hwin t (List.mem_cons_self _ _)
    obtain ⟨s₁, hcall, hkey₁, _⟩ :=
      fixedWindowCall_spec tokens windowMs ns identifier t s c (by rw [hb]; exact hkey)
    have hkey₁' : s₁.store (fixedWindowKey ns identifier b) =
        (if c + 1 = 0 then none else some (intToString (c + 1 : ℕ))) := by
      rw [if_neg (Nat.succ_ne_zero c)]
      rw [hb] at hkey₁
      rw [hkey₁]
      norm_cast
    obtain ⟨s₂, hrun⟩ :=
      ih (c + 1) s₁ (fun u hu => hwin u (List.mem_cons_of_mem _ hu)) hkey₁'
    refine ⟨s₂, ?_⟩
    have hstep : fixedWindowRun tokens windowMs ns identifier (t :: ts) s =
        match fixedWindowCall tokens windowMs ns identifier t s with
        | .error e => .error e
        | .ok (r, s') =>
          match fixedWindowRun tokens windowMs ns identifier ts s' with
          | .error e => .error e
          | .ok (rs, s'') => .ok (r :: rs, s'') := rfl
    rw [hstep, hcall]
    show (match fixedWindowRun tokens windowMs ns identifier ts s₁ with
      | Except.error e => Except.error e
      | Except.ok (rs, s'') =>
        Except.ok (fixedWindowResponse tokens windowMs t ((c : ℤ) + 1) :: rs, s'')) = _
    rw [hrun]
    show Except.ok
      (fixedWindowResponse tokens windowMs t ((c : ℤ) + 1) ::
        List.map _ (List.range ts.length), s₂) = _
    congr 1
    rw [Prod.mk.injEq]
    refine ⟨?_, rfl⟩
    rw [List.length_cons, List.range_succ_eq_map, List.map_cons, List.map_map]
    rw [List.cons.injEq]
    constructor
    · unfold fixedWindowResponse
      rw [hb]
      have hcast : (((c : ℤ) + 1 : ℤ) : ℚ) = ((c + 0 + 1 : ℕ) : ℚ) := by
        push_cast
        ring
      rw [RLResponse.mk.injEq]
      refine ⟨?_, rfl, ?_, rfl⟩
      · rw [hcast]
      · rw [hcast]
    · apply List.map_congr_left
      intro i _
      have harith : c + 1 + i + 1 = c + (i + 1) + 1 := by omega
      show ({ success := decide (((c + 1 + i + 1 : ℕ) : ℚ) ≤ tokens)
              limit := tokens
              remaining := max 0 (tokens - ((c + 1 + i + 1 : ℕ) : ℚ))
              reset := ((b : ℚ) + 1) * windowMs } : RLResponse) = _
      rw [harith]
      rfl

/-- C1: with `tokens = N ≥ 1`, a fresh store, and `N + 1` or more calls all
inside one window, the `N`-th response is a success with `remaining = 0`,
the `(N+1)`-th is a denial with `remaining = 0`, and every response carries
`limit = N`. -/
theorem fixedWindow_exhaustion (N : ℕ) (windowMs : ℚ) (ns identifier : String)
    (b : ℤ) (ts : List ℚ) (hN : 1 ≤ N) (hlen : N + 1 ≤ ts.length)
    (hwin : ∀ t ∈ ts, ⌊t / windowMs⌋ = b) :
    ∃ rs s',
      fixedWindowRun (N : ℚ) windowMs ns identifier ts kvEmpty = .ok (rs, s') ∧
      (∀ r ∈ rs, r.limit = (N : ℚ)) ∧
      (∃ r, rs[N - 1]? = some r ∧ r.success = true ∧ r.remaining = 0) ∧
      (∃ r, rs[N]? = some r ∧ r.success = false ∧ r.remaining = 0) := by
  obtain ⟨s', hrun⟩ := fixedWindowRun_spec (N : ℚ) windowMs ns identifier b ts 0
    kvEmpty hwin (by rw [if_pos rfl]; rfl)
  set F : ℕ → RLResponse := fun i =>
    { success := decide (((0 + i + 1 : ℕ) : ℚ) ≤ (N : ℚ))
      limit := (N : ℚ)
      remaining := max 0 ((N : ℚ) - ((0 + i + 1 : ℕ) : ℚ))
      reset := ((b : ℚ) + 1) * windowMs } with hF
  refine ⟨_, s', hrun, ?_, ?_, ?_⟩
  · intro r hr
    rw [List.mem_map] at hr
    obtain ⟨i, _, rfl⟩ := hr
    rfl
  · refine ⟨F (N - 1), ?_, ?_, ?_⟩
    · rw [List.getElem?_map, List.getElem?_range (by omega : N - 1 < ts.length)]
      rfl
    · show decide (((0 + (N - 1) + 1 : ℕ) : ℚ) ≤ (N : ℚ)) = true
      rw [decide_eq_true_iff]
      have h : 0 + (N - 1) + 1 = N := by omega
      rw [h]
    · show max 0 ((N : ℚ) - ((0 + (N - 1) + 1 : ℕ) : ℚ)) = 0
      have h : 0 + (N - 1) + 1 = N := by omega
      rw [h]
      simp
  · refine ⟨F N, ?_, ?_, ?_⟩
    · rw [List.getElem?_map, List.getElem?_range (by omega : N < ts.length)]
      rfl
    · show decide (((0 + N + 1 : ℕ) : ℚ) ≤ (N : ℚ)) = false
      rw [decide_eq_false_iff_not]
      push_cast
      intro hcon
      linarith
    · show max 0 ((N : ℚ) - ((0 + N + 1 : ℕ) : ℚ)) = 0
      push_cast
      rw [max_eq_left (by linarith)]

/-! ## Claims about the token bucket and sliding window decisions -/

/-- C2: a token bucket decision succeeds iff the refilled balance
`newTokens` is at least `1`; on success it persists `newTokens - 1`
(one token consumed), on denial it persists `newTokens` unchanged, and the
persisted value is exactly the `tokens` field of the `hmset` payload. -/
theorem tokenBucket_consumption (refillRate refillDuration maxTokens : ℚ)
    (ns identifier : String) (now tokens lastRefill : ℚ) :
    ((tokenBucketStep refillRate refillDuration maxTokens ns identifier now
        tokens lastRefill).resp.success = true ↔
      1 ≤ (tokenBucketStep refillRate refillDuration maxTokens ns identifier
        now tokens lastRefill).newTokens) ∧
    (1 ≤ (tokenBucketStep refillRate refillDuration maxTokens ns identifier
        now tokens lastRefill).newTokens →
      (tokenBucketStep refillRate refillDuration maxTokens ns identifier now
        tokens lastRefill).tokensToSet =
      (tokenBucketStep refillRate refillDuration maxTokens ns identifier now
        tokens lastRefill).newTokens - 1) ∧
    (¬ 1 ≤ (tokenBucketStep refillRate refillDuration maxTokens ns identifier
        now tokens lastRefill).newTokens →
      (tokenBucketStep refillRate refillDuration maxTokens ns identifier now
        tokens lastRefill).tokensToSet =
      (tokenBucketStep refillRate refillDuration maxTokens ns identifier now
        tokens lastRefill).newTokens) ∧
    (tokenBucketStep refillRate refillDuration maxTokens ns identifier now
      tokens lastRefill).trace[1]? =
      some (.hmset (ns ++ ":" ++ identifier ++ ":" ++ "bucket")
        [("tokens", (tokenBucketStep refillRate refillDuration maxTokens ns
            identifier now tokens lastRefill).tokensToSet),
         ("lastRefill", (tokenBucketStep refillRate refillDuration maxTokens ns
            identifier now tokens lastRefill).refillDate)]) := by
  set r := tokenBucketStep refillRate refillDuration maxTokens ns identifier
    now tokens lastRefill with hr
  have hsucc : r.resp.success = decide (1 ≤ r.newTokens) := rfl
  have htts : r.tokensToSet =
      if 1 ≤ r.newTokens then r.newTokens - 1 else r.newTokens := rfl
  refine ⟨?_, ?_, ?_, rfl⟩
  · rw [hsucc, decide_eq_true_iff]
  · intro h
    rw [htts, if_pos h]
  · intro h
    rw [htts, if_neg h]

/-- C3: every store operation of a token bucket decision addresses the single
key `namespace:identifier:bucket` (a fixed suffix independent of the call
time), the operations are exactly one `hmget` read, one `hmset` write and one
`pexpire` re-arming with `2 * refillIntervalMs`. -/
theorem tokenBucket_single_key (refillRate refillDuration maxTokens : ℚ)
    (ns identifier : String) (now tokens lastRefill : ℚ) :
    (tokenBucketStep refillRate refillDuration maxTokens ns identifier now
      tokens lastRefill).trace =
      [KVEffect.hmget (ns ++ ":" ++ identifier ++ ":" ++ "bucket")
        ["tokens", "lastRefill"],
       KVEffect.hmset (ns ++ ":" ++ identifier ++ ":" ++ "bucket")
        [("tokens", (tokenBucketStep refillRate refillDuration maxTokens ns
            identifier now tokens lastRefill).tokensToSet),
         ("lastRefill", (tokenBucketStep refillRate refillDuration maxTokens ns
            identifier now tokens lastRefill).refillDate)],
       KVEffect.pexpire (ns ++ ":" ++ identifier ++ ":" ++ "bucket")
        (2 * refillDuration)] ∧
    (∀ e ∈ (tokenBucketStep refillRate refillDuration maxTokens ns identifier
        now tokens lastRefill).trace,
      e.keyOf = ns ++ ":" ++ identifier ++ ":" ++ "bucket") ∧
    (∀ now' tokens' lastRefill',
      (tokenBucketStep refillRate refillDuration maxTokens ns identifier
        now' tokens' lastRefill').trace.map KVEffect.keyOf =
      (tokenBucketStep refillRate refillDuration maxTokens ns identifier
        now tokens lastRefill).trace.map KVEffect.keyOf) := by
  set r := tokenBucketStep refillRate refillDuration maxTokens ns identifier
    now tokens lastRefill with hr
  set key := ns ++ ":" ++ identifier ++ ":" ++ "bucket" with hk
  have htrace : r.trace = [ KVEffect.hmget key ["tokens", "lastRefill"],
      KVEffect.hmset key [("tokens", r.tokensToSet), ("lastRefill", r.refillDate)],
      KVEffect.pexpire key (refillDuration * 2) ] := rfl
  refine ⟨?_, ?_, ?_⟩
  · rw [htrace, mul_comm refillDuration 2]
  · intro e he
    rw [htrace] at he
    fin_cases he <;> rfl
  · intro now' tokens' lastRefill'
    rfl

/-- C4: the sliding window decision at time `now`, with post-increment count
`current` and previous-window count `previousCount`, succeeds iff the weighted
estimate `previousCount * (1 - (now % windowMs) / windowMs) + current` is at
most `tokens`; a denial reports `remaining = 0`, a success reports `max 0` of
`tokens - estimate` rounded to one decimal, and both outcomes report
`reset = (currentWindow + 1) * windowMs`. -/
theorem slidingWindow_estimate (tokens windowMs now : ℚ)
    (current previousCount : ℤ) :
    ((slidingWindowResponse tokens windowMs now current previousCount).success = true ↔
      (previousCount : ℚ) * (1 - jsRem now windowMs / windowMs) + (current : ℚ) ≤
        tokens) ∧
    ((previousCount : ℚ) * (1 - jsRem now windowMs / windowMs) + (current : ℚ) >
        tokens →
      (slidingWindowResponse tokens windowMs now current previousCount).remaining =
        0) ∧
    ((previousCount : ℚ) * (1 - jsRem now windowMs / windowMs) + (current : ℚ) ≤
        tokens →
      (slidingWindowResponse tokens windowMs now current previousCount).remaining =
        max 0 (toFixed1 (tokens -
          ((previousCount : ℚ) * (1 - jsRem now windowMs / windowMs) +
            (current : ℚ))))) ∧
    (slidingWindowResponse tokens windowMs now current previousCount).reset =
      ((⌊now / windowMs⌋ : ℚ) + 1) * windowMs := by
  simp only [slidingWindowResponse]
  by_cases h : (previousCount : ℚ) * (1 - jsRem now windowMs / windowMs) +
      (current : ℚ) > tokens
  · rw [if_pos h]
    refine ⟨?_, fun _ => rfl, fun hle => absurd h (not_lt.mpr hle), rfl⟩
    simp only [Bool.false_eq_true, false_iff, not_le]
    exact h
  · rw [if_neg h]
    refine ⟨?_, fun hgt => absurd hgt h, fun _ => rfl, rfl⟩
    simp only [true_iff]
    exact not_lt.mp h

/-- Rounding to one decimal of a quantity at most an integer bound stays at
most the bound. -/
theorem toFixed1_le_int {q : ℚ} {z : ℤ} (h : q ≤ (z : ℚ)) :
    toFixed1 q ≤ (z : ℚ) := by
  unfold toFixed1
  rw [div_le_iff₀ (by norm_num : (0 : ℚ) < 10)]
  have h10 : 10 * q ≤ ((10 * z : ℤ) : ℚ) := by
    push_cast
    linarith
  have hr : round (10 * q) ≤ round (((10 * z : ℤ) : ℚ)) := by
    rw [round_eq, round_eq]
    exact Int.floor_le_floor (by linarith)
  rw [round_intCast] at hr
  calc ((round (10 * q) : ℤ) : ℚ) ≤ ((10 * z : ℤ) : ℚ) := by exact_mod_cast hr
    _ = (z : ℚ) * 10 := by push_cast; ring

/-- C7: each of the three algorithms reports `remaining ≤ limit`; for the
window algorithms under any counter values a run can produce (non-negative
stored counts, positive integer token policy), and for the token bucket
unconditionally in the stored record — in particular after arbitrarily long
idle time, since the refill is capped at `maxTokens`. -/
theorem remaining_le_limit :
    (∀ (tokens windowMs now : ℚ) (current : ℤ), 0 ≤ tokens → 0 ≤ current →
      (fixedWindowResponse tokens windowMs now current).remaining ≤
        (fixedWindowResponse tokens windowMs now current).limit) ∧
    (∀ (tokensZ : ℤ) (windowMs now : ℚ) (current previousCount : ℤ),
      0 ≤ tokensZ → 0 < windowMs → 0 ≤ now → 0 ≤ current → 0 ≤ previousCount →
      (slidingWindowResponse (tokensZ : ℚ) windowMs now current
        previousCount).remaining ≤
      (slidingWindowResponse (tokensZ : ℚ) windowMs now current
        previousCount).limit) ∧
    (∀ (refillRate refillDuration maxTokens : ℚ) (ns identifier : String)
      (now tokens lastRefill : ℚ), 0 ≤ maxTokens →
      (tokenBucketStep refillRate refillDuration maxTokens ns identifier now
        tokens lastRefill).resp.remaining ≤
      (tokenBucketStep refillRate refillDuration maxTokens ns identifier now
        tokens lastRefill).resp.limit) := by
  refine ⟨?_, ?_, ?_⟩
  · intro tokens windowMs now current htok hcur
    show max 0 (tokens - (current : ℚ)) ≤ tokens
    have : (0 : ℚ) ≤ (current : ℚ) := by exact_mod_cast hcur
    apply max_le htok
    linarith
  · intro tokensZ windowMs now current previousCount htok hw hnow hcur hprev
    have hp := jsRem_div_bounds hnow hw
    have htokq : (0 : ℚ) ≤ (tokensZ : ℚ) := by exact_mod_cast htok
    have hcurq : (0 : ℚ) ≤ (current : ℚ) := by exact_mod_cast hcur
    have hprevq : (0 : ℚ) ≤ (previousCount : ℚ) := by exact_mod_cast hprev
    have havg : (0 : ℚ) ≤
        (previousCount : ℚ) * (1 - jsRem now windowMs / windowMs) +
          (current : ℚ) := by
      have h1 : (0 : ℚ) ≤ 1 - jsRem now windowMs / windowMs := by
        linarith [hp.2]
      nlinarith
    simp only [slidingWindowResponse]
    split
    · show (0 : ℚ) ≤ (tokensZ : ℚ)
      exact htokq
    · rename_i hle
      rw [not_lt] at hle
      show max 0 (toFixed1 ((tokensZ : ℚ) - _)) ≤ (tokensZ : ℚ)
      apply max_le htokq
      apply toFixed1_le_int
      linarith
  · intro refillRate refillDuration maxTokens ns identifier now tokens
      lastRefill hmax
    set r := tokenBucketStep refillRate refillDuration maxTokens ns identifier
      now tokens lastRefill with hr
    have hlim : r.resp.limit = maxTokens := rfl
    have hrem : r.resp.remaining = max 0 r.tokensToSet := rfl
    have hnew : r.newTokens =
        min maxTokens
          (tokens + (⌊(now - lastRefill) / refillDuration⌋ : ℚ) * refillRate) :=
      rfl
    have htts : r.tokensToSet =
        if 1 ≤ r.newTokens then r.newTokens - 1 else r.newTokens := rfl
    rw [hlim, hrem]
    apply max_le hmax
    have hcap : r.newTokens ≤ maxTokens := by
      rw [hnew]
      exact min_le_left _ _
    rw [htts]
    split
    · linarith
    · exact hcap

/-- Closed instance of `remaining_le_limit` at concrete policies. -/
theorem remaining_le_limit_witness :
    (fixedWindowResponse 5 10 3 1).remaining ≤
      (fixedWindowResponse 5 10 3 1).limit ∧
    (slidingWindowResponse ((5 : ℤ) : ℚ) 10 3 1 0).remaining ≤
      (slidingWindowResponse ((5 : ℤ) : ℚ) 10 3 1 0).limit ∧
    (tokenBucketStep 1 10 5 "api" "user" 20 5 0).resp.remaining ≤
      (tokenBucketStep 1 10 5 "api" "user" 20 5 0).resp.limit :=
  ⟨remaining_le_limit.1 5 10 3 1 (by norm_num) (by norm_num),
   remaining_le_limit.2.1 5 10 3 1 0 (by norm_num) (by norm_num) (by norm_num)
     (by norm_num) (by norm_num),
   remaining_le_limit.2.2 1 10 5 "api" "user" 20 5 0 (by norm_num)⟩

/-- Closed instance of `fixedWindow_exhaustion`: three calls at time 0 under
`fixedWindow(2, …)`. -/
theorem fixedWindow_exhaustion_witness :
    ∃ rs s',
      fixedWindowRun ((2 : ℕ) : ℚ) 10 "api" "user" [0, 0, 0] kvEmpty =
        .ok (rs, s') ∧
      (∀ r ∈ rs, r.limit = ((2 : ℕ) : ℚ)) ∧
      (∃ r, rs[2 - 1]? = some r ∧ r.success = true ∧ r.remaining = 0) ∧
      (∃ r, rs[2]? = some r ∧ r.success = false ∧ r.remaining = 0) :=
  fixedWindow_exhaustion 2 10 "api" "user" 0 [0, 0, 0] (by norm_num)
    (by norm_num)
    (by intro t ht; fin_cases ht <;> simp)

/-! ## The `ms` duration parser (src/internal.ts)

    export function ms(duration: Duration): number {
      if (typeof duration !== "string" || duration.length === 0) {
        throw new Error(`Invalid duration provided: ...`);
      }
      const input = duration.trim();
      const match =
        /^(?<value>-?(?:\d+(?:\.\d+)?|\.\d+))\s*(?<unit>milliseconds?|msecs?|msec|ms|seconds?|secs?|sec|s|minutes?|mins?|min|m|hours?|hrs?|hr|h|days?|day|d)?$/i
          .exec(input);
      if (!match?.groups?.value) return NaN;
      ...
      switch (unit) { ... default: throw new Error(`Unable to parse duration ...`); }
    }

The anchored regular expression forces the remainder after the magnitude and
optional whitespace to be exactly one of the listed unit spellings, or empty;
`msec`/`msecs` are matched by the expression but not handled by the `switch`,
so they fall into the `default` throw.  A non-matching (non-empty) input
returns the number `NaN` rather than throwing.  The outcome is modelled by
`MsResult`: `.invalid` for the `Invalid duration` throw, `.unrecognized` for
the `Unable to parse duration` throw, `.nan` for the `NaN` return. -/

/-- Outcome of the `ms` duration parser. -/
inductive MsResult where
  | invalid
  | nan
  | unrecognized
  | ok (q : ℚ)
  deriving DecidableEq, Repr

/-- Whether the parser threw (as opposed to returning a number value). -/
def MsResult.isErr : MsResult → Bool
  | .invalid => true
  | .unrecognized => true
  | _ => false

/-- `String.prototype.trim` on the character list. -/
def trimJS (cs : List Char) : List Char :=
  ((cs.dropWhile isSpaceJS).reverse.dropWhile isSpaceJS).reverse

/-- `Number.parseFloat` value of a matched magnitude: integer digits `ip`
and fraction digits `fracDs`. -/
def magVal (neg : Bool) (ip : ℕ) (fracDs : List Char) : ℚ :=
  let m : ℚ :=
    match fracDs with
    | [] => (ip : ℚ)
    | _ => (ip : ℚ) + (digitsToNat fracDs : ℚ) / (10 ^ fracDs.length)
  if neg then -m else m

/-- The regex magnitude `-?(?:\d+(?:\.\d+)?|\.\d+)`: parses the longest
such prefix, returning its value and the remainder (the regex alternation is
equivalent to this greedy parse because no unit spelling starts with a digit
or a dot). -/
def parseMagnitude (cs : List Char) : Option (ℚ × List Char) :=
  let (neg, cs₁) : Bool × List Char :=
    match cs with
    | '-' :: rest => (true, rest)
    | _ => (false, cs)
  let intDs := cs₁.takeWhile isDigitChar
  let cs₂ := cs₁.dropWhile isDigitChar
  if intDs.isEmpty then
    match cs₂ with
    | '.' :: cs₃ =>
      let fracDs := cs₃.takeWhile isDigitChar
      if fracDs.isEmpty then none
      else some (magVal neg 0 fracDs, cs₃.dropWhile isDigitChar)
    | _ => none
  else
    match cs₂ with
    | '.' :: cs₃ =>
      let fracDs := cs₃.takeWhile isDigitChar
      if fracDs.isEmpty then some (magVal neg (digitsToNat intDs) [], cs₂)
      else some (magVal neg (digitsToNat intDs) fracDs, cs₃.dropWhile isDigitChar)
    | _ => some (magVal neg (digitsToNat intDs) [], cs₂)

/-- The `switch` of `ms`: factor per recognized (lowercased) unit spelling. -/
def unitFactor (u : String) : Option ℚ :=
  if u = "millisecond" ∨ u = "milliseconds" ∨ u = "ms" then some 1
  else if u = "s" ∨ u = "second" ∨ u = "seconds" ∨ u = "secs" ∨ u = "sec" then
    some 1000
  else if u = "m" ∨ u = "minute" ∨ u = "minutes" ∨ u = "mins" ∨ u = "min" then
    some 60000
  else if u = "h" ∨ u = "hour" ∨ u = "hours" ∨ u = "hrs" ∨ u = "hr" then
    some 3600000
  else if u = "d" ∨ u = "day" ∨ u = "days" then some 86400000
  else none

/-- Lowercased string of a character list (the `/i` flag plus
`rawUnit?.toLowerCase()`). -/
def lowerStr (cs : List Char) : String := String.mk (cs.map Char.toLower)

/-- The part of `ms` after the empty-input check, on the trimmed input. -/
def msParseBody (input : List Char) : MsResult :=
  match parseMagnitude input with
  | none => .nan
  | some (q, rest) =>
    let unitCs := rest.dropWhile isSpaceJS
    if unitCs.isEmpty then .unrecognized
    else
      match unitFactor (lowerStr unitCs) with
      | some f => .ok (q * f)
      | none =>
        if lowerStr unitCs = "msec" ∨ lowerStr unitCs = "msecs" then
          .unrecognized
        else .nan

/-- The `ms` duration parser. -/
def msParse (s : String) : MsResult :=
  if s.data.isEmpty then .invalid else msParseBody (trimJS s.data)

/-- A (lowercased) remainder the regular expression's optional unit group
accepts: the `switch`-handled spellings plus `msec`/`msecs`. -/
def regexUnitSpelling (u : String) : Bool :=
  (unitFactor u).isSome || u = "msec" || u = "msecs"

/-- Whether the anchored regular expression matches the input: the magnitude
parses and the remainder, after optional whitespace, is empty or a
recognized unit spelling (case-insensitively). -/
def grammarMatches (s : String) : Bool :=
  match parseMagnitude (trimJS s.data) with
  | none => false
  | some (_, rest) =>
    let unitCs := rest.dropWhile isSpaceJS
    unitCs.isEmpty || regexUnitSpelling (lowerStr unitCs)

theorem msParseBody_ne_invalid (cs : List Char) :
    msParseBody cs ≠ MsResult.invalid := by
  unfold msParseBody
  cases h : parseMagnitude cs with
  | none => simp
  | some pr =>
    obtain ⟨q, rest⟩ := pr
    simp only []
    split
    · simp
    · split
      · simp
      · split
        · simp
        · simp

/-- The parser reports `Invalid duration` exactly on the empty string. -/
theorem msParse_invalid_iff (s : String) :
    msParse s = MsResult.invalid ↔ s = "" := by
  unfold msParse
  constructor
  · intro h
    by_cases he : s.data.isEmpty
    · cases s with
      | mk data =>
        rw [List.isEmpty_iff] at he
        have hd : data = [] := he
        subst hd
        rfl
    · rw [if_neg he] at h
      exact absurd h (msParseBody_ne_invalid _)
  · intro h
    subst h
    rfl

/-- On a non-empty input `msParse` is the body applied to the trimmed
character list. -/
theorem msParse_eq_body {s : String} (hs : s ≠ "") :
    msParse s = msParseBody (trimJS s.data) := by
  have hdata : s.data ≠ [] := by
    intro h
    apply hs
    cases s with
    | mk d =>
      have hd : d = [] := h
      subst hd
      rfl
  have hie : s.data.isEmpty = false := by
    rw [List.isEmpty_eq_false_iff_exists_mem]
    cases hd : s.data with
    | nil => exact absurd hd hdata
    | cons c cs => exact ⟨c, by simp [hd]⟩
  unfold msParse
  simp only [hie, Bool.false_eq_true, if_false]

theorem msParseBody_no_magnitude {cs : List Char}
    (h : parseMagnitude cs = none) : msParseBody cs = MsResult.nan := by
  unfold msParseBody
  rw [h]

theorem msParseBody_magnitude {cs : List Char} {q : ℚ} {rest : List Char}
    (h : parseMagnitude cs = some (q, rest)) :
    msParseBody cs =
      (if (rest.dropWhile isSpaceJS).isEmpty then MsResult.unrecognized
       else
         match unitFactor (lowerStr (rest.dropWhile isSpaceJS)) with
         | some f => MsResult.ok (q * f)
         | none =>
           if lowerStr (rest.dropWhile isSpaceJS) = "msec" ∨
               lowerStr (rest.dropWhile isSpaceJS) = "msecs" then
             MsResult.unrecognized
           else MsResult.nan) := by
  unfold msParseBody
  rw [h]

/-- Universal law: any input whose magnitude parses and whose remaining unit
token has a `switch` factor evaluates to magnitude × factor. -/
theorem msParse_wellFormed_ok {s : String} {q : ℚ} {rest : List Char} {f : ℚ}
    (hs : s ≠ "") (hmag : parseMagnitude (trimJS s.data) = some (q, rest))
    (hfac : unitFactor (lowerStr (rest.dropWhile isSpaceJS)) = some f) :
    msParse s = MsResult.ok (q * f) := by
  rw [msParse_eq_body hs, msParseBody_magnitude hmag]
  have hne : (rest.dropWhile isSpaceJS).isEmpty = false := by
    cases hu : rest.dropWhile isSpaceJS with
    | nil =>
      rw [hu] at hfac
      have hemp : unitFactor (lowerStr []) = none := rfl
      rw [hemp] at hfac
      exact Option.noConfusion hfac
    | cons c cs' => rfl
  simp only [hne, Bool.false_eq_true, if_false, hfac]

/-- Universal law: any non-empty input the regular expression rejects makes
the parser return `NaN`, not raise. -/
theorem msParse_nan_of_mismatch {s : String} (hs : s ≠ "")
    (h : grammarMatches s = false) : msParse s = MsResult.nan := by
  rw [msParse_eq_body hs]
  cases hmag : parseMagnitude (trimJS s.data) with
  | none => exact msParseBody_no_magnitude hmag
  | some pr =>
    obtain ⟨q, rest⟩ := pr
    have h1 : (match parseMagnitude (trimJS s.data) with
      | none => false
      | some (_, rest) =>
        (rest.dropWhile isSpaceJS).isEmpty ||
          regexUnitSpelling (lowerStr (rest.dropWhile isSpaceJS))) = false := h
    rw [hmag] at h1
    have h2 : ((rest.dropWhile isSpaceJS).isEmpty ||
        regexUnitSpelling (lowerStr (rest.dropWhile isSpaceJS))) = false := h1
    rw [Bool.or_eq_false_iff] at h2
    obtain ⟨hemp, hreg⟩ := h2
    rw [msParseBody_magnitude hmag]
    simp only [hemp, Bool.false_eq_true, if_false]
    have h3 : ((unitFactor (lowerStr (rest.dropWhile isSpaceJS))).isSome ||
        decide (lowerStr (rest.dropWhile isSpaceJS) = "msec") ||
        decide (lowerStr (rest.dropWhile isSpaceJS) = "msecs")) = false := hreg
    rw [Bool.or_eq_false_iff, Bool.or_eq_false_iff] at h3
    obtain ⟨⟨hsome, hmsec⟩, hmsecs⟩ := h3
    have hcond : ¬(lowerStr (rest.dropWhile isSpaceJS) = "msec" ∨
        lowerStr (rest.dropWhile isSpaceJS) = "msecs") := by
      rintro (hc | hc)
      · rw [hc] at hmsec
        simp at hmsec
      · rw [hc] at hmsecs
        simp at hmsecs
    cases huf : unitFactor (lowerStr (rest.dropWhile isSpaceJS)) with
    | some f =>
      rw [huf] at hsome
      exact absurd hsome (by simp)
    | none =>
      show (if lowerStr (rest.dropWhile isSpaceJS) = "msec" ∨
          lowerStr (rest.dropWhile isSpaceJS) = "msecs" then
        MsResult.unrecognized else MsResult.nan) = MsResult.nan
      rw [if_neg hcond]

/-- Universal law: any input whose magnitude parses but whose unit token is
missing (only whitespace follows) or is a grammar-matched spelling the
`switch` does not handle (`msec`/`msecs`) raises `Unable to parse
duration`. -/
theorem msParse_missing_or_unhandled_unit {s : String} {q : ℚ}
    {rest : List Char} (hs : s ≠ "")
    (hmag : parseMagnitude (trimJS s.data) = some (q, rest))
    (hcond : rest.dropWhile isSpaceJS = [] ∨
      lowerStr (rest.dropWhile isSpaceJS) = "msec" ∨
      lowerStr (rest.dropWhile isSpaceJS) = "msecs") :
    msParse s = MsResult.unrecognized := by
  rw [msParse_eq_body hs, msParseBody_magnitude hmag]
  rcases hcond with hemp | hu | hu
  · rw [hemp]
    rfl
  · have hne : (rest.dropWhile isSpaceJS).isEmpty = false := by
      cases hcs : rest.dropWhile isSpaceJS with
      | nil =>
        rw [hcs] at hu
        exact absurd hu (by decide)
      | cons _ _ => rfl
    simp only [hne, Bool.false_eq_true, if_false]
    rw [hu]
    exact rfl
  · have hne : (rest.dropWhile isSpaceJS).isEmpty = false := by
      cases hcs : rest.dropWhile isSpaceJS with
      | nil =>
        rw [hcs] at hu
        exact absurd hu (by decide)
      | cons _ _ => rfl
    simp only [hne, Bool.false_eq_true, if_false]
    rw [hu]
    exact rfl

/-! ### Parsing a canonical numeral followed by a unit -/

theorem takeWhile_append_stop {p : Char → Bool} {xs ys : List Char}
    (hall : ∀ c ∈ xs, p c = true)
    (hy : ys = [] ∨ ∃ y ys', ys = y :: ys' ∧ p y = false) :
    (xs ++ ys).takeWhile p = xs ∧ (xs ++ ys).dropWhile p = ys := by
  induction xs with
  | nil =>
    rcases hy with rfl | ⟨y, ys', rfl, hpy⟩
    · exact ⟨rfl, rfl⟩
    · constructor
      · simp [List.takeWhile_cons, hpy]
      · simp [List.dropWhile_cons, hpy]
  | cons x xs ih =>
    have hpx : p x = true := hall x (List.mem_cons_self _ _)
    have h2 := ih fun c hc => hall c (List.mem_cons_of_mem _ hc)
    constructor
    · show ((x :: (xs ++ ys)).takeWhile p) = x :: xs
      rw [List.takeWhile_cons, hpx]
      simp [h2.1]
    · show ((x :: (xs ++ ys)).dropWhile p) = ys
      rw [List.dropWhile_cons]
      simp [hpx, h2.2]

theorem dropWhile_all_nonspace {cs : List Char}
    (h : ∀ c ∈ cs, isSpaceJS c = false) : cs.dropWhile isSpaceJS = cs := by
  cases cs with
  | nil => rfl
  | cons c cs' =>
    exact dropWhile_eq_self_of_head (h c (List.mem_cons_self _ _))

theorem trimJS_all_nonspace {cs : List Char}
    (h : ∀ c ∈ cs, isSpaceJS c = false) : trimJS cs = cs := by
  unfold trimJS
  rw [dropWhile_all_nonspace h]
  rw [dropWhile_all_nonspace fun c hc => h c (List.mem_reverse.mp hc)]
  exact List.reverse_reverse cs

/-- Parsing a plain digit run followed by a remainder that starts with
neither a digit nor a dot yields its value and that remainder. -/
theorem parseMagnitude_digits_rest {ds rest : List Char}
    (hall : ∀ c ∈ ds, isDigitChar c = true) (hne : ds ≠ [])
    (hrest : rest = [] ∨
      ∃ r rs, rest = r :: rs ∧ isDigitChar r = false ∧ r ≠ '.') :
    parseMagnitude (ds ++ rest) = some (((digitsToNat ds : ℕ) : ℚ), rest) := by
  have hy : rest = [] ∨ ∃ y ys', rest = y :: ys' ∧ isDigitChar y = false := by
    rcases hrest with h | ⟨r, rs, h1, h2, _⟩
    · exact Or.inl h
    · exact Or.inr ⟨r, rs, h1, h2⟩
  have hsplit := takeWhile_append_stop hall hy
  unfold parseMagnitude
  cases hds : ds with
  | nil => exact absurd hds hne
  | cons d ds' =>
    subst hds
    have hd : isDigitChar d = true := hall d (List.mem_cons_self _ _)
    have hdm : d ≠ '-' := by intro hh; subst hh; revert hd; decide
    simp only [List.cons_append] at hsplit ⊢
    have hstep : (match d :: (ds' ++ rest) with
        | '-' :: rest => ((true : Bool), rest)
        | _ => ((false : Bool), d :: (ds' ++ rest))) =
        (false, d :: (ds' ++ rest)) := by
      split
      · rename_i heq
        rw [List.cons.injEq] at heq
        exact absurd heq.1 hdm
      · rfl
    rw [hstep]
    simp only [hsplit.1, hsplit.2]
    rw [List.isEmpty_cons]
    simp only [Bool.false_eq_true, if_false]
    rcases hrest with hrst | ⟨r, rs, hrst, _, hrdot⟩
    · rw [hrst]
      rfl
    · rw [hrst]
      have hstep2 : (match r :: rs with
          | '.' :: cs₃ =>
            let fracDs := cs₃.takeWhile isDigitChar
            if fracDs.isEmpty then
              some (magVal false (digitsToNat (d :: ds')) [], r :: rs)
            else
              some (magVal false (digitsToNat (d :: ds')) fracDs,
                cs₃.dropWhile isDigitChar)
          | _ => some (magVal false (digitsToNat (d :: ds')) [], r :: rs)) =
          some (magVal false (digitsToNat (d :: ds')) [], r :: rs) := by
        split
        · rename_i heq
          rw [List.cons.injEq] at heq
          exact absurd heq.1 hrdot
        · rfl
      rw [hstep2]
      rfl

theorem dropWhile_eq_self_of_headq {p : Char → Bool} {cs : List Char}
    (h : ∀ c, cs.head? = some c → p c = false) : cs.dropWhile p = cs := by
  cases cs with
  | nil => rfl
  | cons c cs' => exact dropWhile_eq_self_of_head (h c rfl)

theorem trimJS_eq_self {cs : List Char}
    (h1 : ∀ c, cs.head? = some c → isSpaceJS c = false)
    (h2 : ∀ c, cs.getLast? = some c → isSpaceJS c = false) : trimJS cs = cs := by
  unfold trimJS
  rw [dropWhile_eq_self_of_headq h1]
  rw [dropWhile_eq_self_of_headq
    (fun c hc => h2 c (by rwa [List.head?_reverse] at hc))]
  exact List.reverse_reverse cs

/-- `msParse` on a canonical numeral directly followed by unit characters
(possibly whitespace-led) whose lowercased, whitespace-stripped form is a
recognized spelling with factor `f`. -/
theorem msParse_numeral_unit (n : ℕ) (unitChars : List Char) (f : ℚ)
    (hne : unitChars ≠ [])
    (hhead : ∀ r rs, unitChars = r :: rs → isDigitChar r = false ∧ r ≠ '.')
    (hlast : ∀ c, unitChars.getLast? = some c → isSpaceJS c = false)
    (hne2 : unitChars.dropWhile isSpaceJS ≠ [])
    (hfac : unitFactor (lowerStr (unitChars.dropWhile isSpaceJS)) = some f) :
    msParse (String.mk (natDigits n ++ unitChars)) =
      MsResult.ok ((n : ℚ) * f) := by
  unfold msParse
  show (if (natDigits n ++ unitChars).isEmpty = true then MsResult.invalid
    else msParseBody (trimJS (natDigits n ++ unitChars))) = _
  have hie : (natDigits n ++ unitChars).isEmpty = false := by
    rw [List.isEmpty_eq_false_iff_exists_mem]
    cases hd : natDigits n with
    | nil => exact absurd hd (natDigits_ne_nil n)
    | cons d ds => exact ⟨d, by simp [hd]⟩
  simp only [hie, Bool.false_eq_true, if_false]
  have htrim : trimJS (natDigits n ++ unitChars) = natDigits n ++ unitChars := by
    apply trimJS_eq_self
    · intro c hc
      cases hd : natDigits n with
      | nil => exact absurd hd (natDigits_ne_nil n)
      | cons d ds =>
        rw [hd, List.cons_append, List.head?_cons, Option.some.injEq] at hc
        rw [← hc]
        exact not_space_of_digit
          (natDigits_all_digit n d (hd ▸ List.mem_cons_self _ _))
    · intro c hc
      rw [List.getLast?_append_of_ne_nil _ hne] at hc
      exact hlast c hc
  rw [htrim]
  unfold msParseBody
  rw [parseMagnitude_digits_rest (natDigits_all_digit n) (natDigits_ne_nil n)
    (by
      cases hu : unitChars with
      | nil => exact absurd hu hne
      | cons r rs =>
        obtain ⟨hr1, hr2⟩ := hhead r rs hu
        exact Or.inr ⟨r, rs, rfl, hr1, hr2⟩)]
  rw [digitsToNat_natDigits]
  show (let unitCs := unitChars.dropWhile isSpaceJS;
    if unitCs.isEmpty = true then MsResult.unrecognized
    else
      match unitFactor (lowerStr unitCs) with
      | some f => MsResult.ok ((n : ℚ) * f)
      | none =>
        if lowerStr unitCs = "msec" ∨ lowerStr unitCs = "msecs" then
          MsResult.unrecognized
        else MsResult.nan) = MsResult.ok ((n : ℚ) * f)
  have hie2 : (unitChars.dropWhile isSpaceJS).isEmpty = false := by
    rw [List.isEmpty_eq_false_iff_exists_mem]
    cases hu : unitChars.dropWhile isSpaceJS with
    | nil => exact absurd hu hne2
    | cons r rs => exact ⟨r, by simp [hu]⟩
  simp only [hie2, Bool.false_eq_true, if_false, hfac]

/-- `msParse` on a canonical numeral with the unit `"s"`. -/
theorem msParse_numeral_seconds (n : ℕ) :
    msParse (natToString n ++ "s") = MsResult.ok ((n : ℚ) * 1000) := by
  show msParse (String.mk (natDigits n ++ ['s'])) = _
  exact msParse_numeral_unit n ['s'] 1000 (by decide)
    (fun r rs h => by
      rw [List.cons.injEq] at h
      exact ⟨by rw [← h.1]; decide, by rw [← h.1]; decide⟩)
    (fun c h => by
      rw [show (['s'] : List Char).getLast? = some 's' from rfl,
        Option.some.injEq] at h
      rw [← h]
      decide)
    (by decide) (by decide)

/-- `msParse` on a canonical numeral with the unit `" hrs"` (whitespace
separated, plural). -/
theorem msParse_numeral_hrs (n : ℕ) :
    msParse (natToString n ++ " hrs") = MsResult.ok ((n : ℚ) * 3600000) := by
  show msParse (String.mk (natDigits n ++ [' ', 'h', 'r', 's'])) = _
  exact msParse_numeral_unit n [' ', 'h', 'r', 's'] 3600000 (by decide)
    (fun r rs h => by
      rw [List.cons.injEq] at h
      exact ⟨by rw [← h.1]; decide, by rw [← h.1]; decide⟩)
    (fun c h => by
      rw [show ([' ', 'h', 'r', 's'] : List Char).getLast? = some 's' from rfl,
        Option.some.injEq] at h
      rw [← h]
      decide)
    (by decide) (by decide)

/-- C5 counterexample: a non-empty input that fails the grammar makes the
parser return the number `NaN`, not raise an error. -/
theorem ms_grammar_mismatch_counterexample :
    msParse "abc" = MsResult.nan ∧
    msParse "abc" ≠ MsResult.invalid ∧
    msParse "abc" ≠ MsResult.unrecognized ∧
    MsResult.isErr (msParse "abc") = false := by decide

/-- C5 (amended): the `Invalid duration` error is raised exactly on the empty
input; every non-empty input that does not match the grammar (including
unrecognized unit spellings such as `weeks`) yields `NaN` without raising;
every input whose magnitude matches but whose unit token is missing, or is a
grammar-matched spelling the `switch` does not handle (`msec`/`msecs`),
raises `Unable to parse duration`. -/
theorem ms_error_conditions :
    (∀ s : String, msParse s = MsResult.invalid ↔ s = "") ∧
    (∀ s : String, s ≠ "" → grammarMatches s = false →
      msParse s = MsResult.nan) ∧
    (∀ (s : String) (q : ℚ) (rest : List Char), s ≠ "" →
      parseMagnitude (trimJS s.data) = some (q, rest) →
      (rest.dropWhile isSpaceJS = [] ∨
       lowerStr (rest.dropWhile isSpaceJS) = "msec" ∨
       lowerStr (rest.dropWhile isSpaceJS) = "msecs") →
      msParse s = MsResult.unrecognized) ∧
    msParse "abc" = MsResult.nan ∧
    msParse "5 weeks" = MsResult.nan ∧
    msParse "5" = MsResult.unrecognized ∧
    msParse "5 " = MsResult.unrecognized ∧
    msParse "5msec" = MsResult.unrecognized ∧
    msParse "5MSECS" = MsResult.unrecognized :=
  ⟨msParse_invalid_iff,
   fun _ hs h => msParse_nan_of_mismatch hs h,
   fun _ _ _ hs hmag hcond => msParse_missing_or_unhandled_unit hs hmag hcond,
   by decide, by decide, by decide, by decide, by decide, by decide⟩

/-- Closed instance of `ms_error_conditions`: the universal `NaN` clause at
`"7 weeks"`, the missing-unit clause at `"7"`, the unhandled-spelling clause
at `"7msecs"`. -/
theorem ms_error_conditions_witness :
    msParse "7 weeks" = MsResult.nan ∧
    msParse "7" = MsResult.unrecognized ∧
    msParse "7msecs" = MsResult.unrecognized := by
  have h := ms_error_conditions
  exact ⟨h.2.1 "7 weeks" (by decide) (by decide),
    h.2.2.1 "7" (magVal false 7 []) [] (by decide) rfl (Or.inl rfl),
    h.2.2.1 "7msecs" (magVal false 7 []) ['m', 's', 'e', 'c', 's'] (by decide)
      rfl (Or.inr (Or.inr rfl))⟩

/-- C6 counterexample: the well-formed duration `"0.5ms"` parses to the
non-integer value `1/2` millisecond. -/
theorem ms_fractional_counterexample :
    msParse "0.5ms" = MsResult.ok (1 / 2) ∧
    ¬ ∃ z : ℤ, (1 / 2 : ℚ) = (z : ℚ) := by
  constructor
  · have h : msParse "0.5ms" = MsResult.ok (magVal false 0 ['5'] * 1) := rfl
    rw [h]
    norm_num [magVal, digitsToNat, digitVal, show ('5'.toNat) = 53 from rfl]
  · rintro ⟨z, hz⟩
    have h1 : (1 : ℚ) = 2 * (z : ℚ) := by linarith
    have h2 : (1 : ℤ) = 2 * z := by exact_mod_cast h1
    omega

/-- C6 (amended): every input accepted by the grammar whose unit token the
`switch` handles evaluates to magnitude × unit factor in milliseconds; the
factors are `ms=1`, `s=1000`, `m=60000`, `h=3600000`, `d=86400000` for every
case-folded singular, plural and abbreviated spelling; any two well-formed
renderings of the same magnitude whose unit spellings carry the same factor
(case, plural and whitespace variants included) parse identically — the
result is an integer whenever the magnitude is an integer, proved for all
canonical numerals; the spec's listed examples hold. -/
theorem ms_unit_factors :
    (∀ (s : String) (q : ℚ) (rest : List Char) (f : ℚ), s ≠ "" →
      parseMagnitude (trimJS s.data) = some (q, rest) →
      unitFactor (lowerStr (rest.dropWhile isSpaceJS)) = some f →
      msParse s = MsResult.ok (q * f)) ∧
    (∀ u : String, u = "ms" ∨ u = "millisecond" ∨ u = "milliseconds" →
      unitFactor u = some 1) ∧
    (∀ u : String,
      u = "s" ∨ u = "sec" ∨ u = "secs" ∨ u = "second" ∨ u = "seconds" →
      unitFactor u = some 1000) ∧
    (∀ u : String,
      u = "m" ∨ u = "min" ∨ u = "mins" ∨ u = "minute" ∨ u = "minutes" →
      unitFactor u = some 60000) ∧
    (∀ u : String,
      u = "h" ∨ u = "hr" ∨ u = "hrs" ∨ u = "hour" ∨ u = "hours" →
      unitFactor u = some 3600000) ∧
    (∀ u : String, u = "d" ∨ u = "day" ∨ u = "days" →
      unitFactor u = some 86400000) ∧
    (∀ (s₁ s₂ : String) (q : ℚ) (rest₁ rest₂ : List Char) (f : ℚ),
      s₁ ≠ "" → s₂ ≠ "" →
      parseMagnitude (trimJS s₁.data) = some (q, rest₁) →
      parseMagnitude (trimJS s₂.data) = some (q, rest₂) →
      unitFactor (lowerStr (rest₁.dropWhile isSpaceJS)) = some f →
      unitFactor (lowerStr (rest₂.dropWhile isSpaceJS)) = some f →
      msParse s₁ = msParse s₂) ∧
    msParse "1s" = MsResult.ok 1000 ∧
    msParse "2m" = MsResult.ok 120000 ∧
    msParse "1h" = MsResult.ok 3600000 ∧
    msParse "24h" = MsResult.ok 86400000 ∧
    msParse "1d" = MsResult.ok 86400000 ∧
    msParse "2 hrs" = MsResult.ok 7200000 ∧
    msParse "2hrs" = MsResult.ok 7200000 ∧
    msParse "2HRS" = MsResult.ok 7200000 ∧
    msParse "2 Hr" = MsResult.ok 7200000 ∧
    msParse "2 hours" = MsResult.ok 7200000 ∧
    msParse "2h" = MsResult.ok 7200000 ∧
    (∀ n : ℕ, msParse (natToString n ++ "s") = MsResult.ok ((n : ℚ) * 1000)) ∧
    (∀ n : ℕ,
      msParse (natToString n ++ " hrs") = MsResult.ok ((n : ℚ) * 3600000)) := by
  refine ⟨fun _ _ _ _ hs hmag hfac => msParse_wellFormed_ok hs hmag hfac,
    ?_, ?_, ?_, ?_, ?_, ?_,
    ?_, ?_, ?_, ?_, ?_, ?_, ?_, ?_, ?_, ?_, ?_,
    msParse_numeral_seconds, msParse_numeral_hrs⟩
  · rintro u (rfl | rfl | rfl) <;> rfl
  · rintro u (rfl | rfl | rfl | rfl | rfl) <;> rfl
  · rintro u (rfl | rfl | rfl | rfl | rfl) <;> rfl
  · rintro u (rfl | rfl | rfl | rfl | rfl) <;> rfl
  · rintro u (rfl | rfl | rfl) <;> rfl
  · intro s₁ s₂ q rest₁ rest₂ f h1 h2 hm1 hm2 hf1 hf2
    rw [msParse_wellFormed_ok h1 hm1 hf1, msParse_wellFormed_ok h2 hm2 hf2]
  · have h : msParse "1s" = MsResult.ok (magVal false 1 [] * 1000) := rfl
    rw [h]; norm_num [magVal]
  · have h : msParse "2m" = MsResult.ok (magVal false 2 [] * 60000) := rfl
    rw [h]; norm_num [magVal]
  · have h : msParse "1h" = MsResult.ok (magVal false 1 [] * 3600000) := rfl
    rw [h]; norm_num [magVal]
  · have h : msParse "24h" = MsResult.ok (magVal false 24 [] * 3600000) := rfl
    rw [h]; norm_num [magVal]
  · have h : msParse "1d" = MsResult.ok (magVal false 1 [] * 86400000) := rfl
    rw [h]; norm_num [magVal]
  · have h : msParse "2 hrs" = MsResult.ok (magVal false 2 [] * 3600000) := rfl
    rw [h]; norm_num [magVal]
  · have h : msParse "2hrs" = MsResult.ok (magVal false 2 [] * 3600000) := rfl
    rw [h]; norm_num [magVal]
  · have h : msParse "2HRS" = MsResult.ok (magVal false 2 [] * 3600000) := rfl
    rw [h]; norm_num [magVal]
  · have h : msParse "2 Hr" = MsResult.ok (magVal false 2 [] * 3600000) := rfl
    rw [h]; norm_num [magVal]
  · have h : msParse "2 hours" = MsResult.ok (magVal false 2 [] * 3600000) := rfl
    rw [h]; norm_num [magVal]
  · have h : msParse "2h" = MsResult.ok (magVal false 2 [] * 3600000) := rfl
    rw [h]; norm_num [magVal]

/-- Closed instance of `ms_unit_factors`: the universal law at `"3s"`, the
variant-agreement clause at `"2 hrs"` versus `"2HRS"`, and the hour factor at
the spelling `"hrs"`. -/
theorem ms_unit_factors_witness :
    msParse "3s" = MsResult.ok (magVal false 3 [] * 1000) ∧
    msParse "2 hrs" = msParse "2HRS" ∧
    unitFactor "hrs" = some 3600000 := by
  have h := ms_unit_factors
  exact ⟨h.1 "3s" (magVal false 3 []) ['s'] 1000 (by decide) rfl rfl,
    h.2.2.2.2.2.2.1 "2 hrs" "2HRS" (magVal false 2 []) [' ', 'h', 'r', 's']
      ['H', 'R', 'S'] 3600000 (by decide) (by decide) rfl rfl rfl rfl,
    h.2.2.2.2.1 "hrs" (Or.inr (Or.inr (Or.inl rfl)))⟩

/-! ## Claims about the LocalKV store -/

/-- C8: `incrby` on an absent key behaves as if the prior value were `0`
(returning the delta and storing its rendering, touching no other key), and
on a key whose stored value does not parse as an integer it throws
`Cannot increment non-numeric value` without storing anything (the thrown
error aborts the operation before any write). -/
theorem incrby_semantics :
    (∀ (s : LocalKV) (k : String) (delta : ℤ), s.store k = none →
      ∃ s', kvIncrby s k delta = .ok (delta, s') ∧
        s'.store k = some (intToString delta) ∧
        ∀ k', k' ≠ k → s'.store k' = s.store k') ∧
    (∀ (s : LocalKV) (k : String) (delta : ℤ) (v : String),
      s.store k = some v → parseIntJS v = none →
      kvIncrby s k delta =
        .error ("Cannot increment non-numeric value: " ++ v)) := by
  constructor
  · intro s k delta hk
    unfold kvIncrby
    simp only [hk, Option.getD_none]
    have hparse : parseIntJS "0" = some 0 := by
      have := parseIntJS_intToString 0
      simpa using this
    simp only [hparse, zero_add]
    refine ⟨_, rfl, ?_, ?_⟩
    · simp [fupd_same]
    · intro k' hk'
      exact fupd_other _ _ hk'
  · intro s k delta v hk hv
    unfold kvIncrby
    simp only [hk, Option.getD_some, hv]

/-- Closed instance of `incrby_semantics`: an increment of a fresh counter,
and the error on a key holding `"abc"`. -/
theorem incrby_semantics_witness :
    (∃ s', kvIncrby kvEmpty "c" 5 = .ok (5, s') ∧
      s'.store "c" = some (intToString 5) ∧
      ∀ k', k' ≠ "c" → s'.store k' = kvEmpty.store k') ∧
    kvIncrby (kvSet kvEmpty "x" "abc" none) "x" 1 =
      .error ("Cannot increment non-numeric value: " ++ "abc") :=
  ⟨incrby_semantics.1 kvEmpty "c" 5 rfl,
   incrby_semantics.2 (kvSet kvEmpty "x" "abc" none) "x" 1 "abc" rfl (by decide)⟩

/-- C9: deleting a key with an armed expiry removes its value-map and
expiration-map entries and leaves the scheduled callback uncancelled; once
the callback's deadline elapses it deletes whatever is then stored under the
key — also a value written by a plain `set` after the `del`. -/
theorem del_leaves_timer_pending (s : LocalKV) (k : String) (t : TimerCb)
    (ht : t ∈ s.timers) (htk : t.key = k) (hcan : t.cancelled = false)
    (v : String) (d : ℚ) (hd : t.fireAt ≤ d) :
    (kvDel s [k]).1 = 1 ∧
    (kvDel s [k]).2.store k = none ∧
    (kvDel s [k]).2.expirations k = none ∧
    (kvDel s [k]).2.timers = s.timers ∧
    (advanceTo (kvSet (kvDel s [k]).2 k v none) d).store k = none := by
  refine ⟨rfl, ?_, ?_, rfl, ?_⟩
  · show (([k] : List String).foldl (fun f k => fupd f k none) s.store) k = none
    rw [foldl_fupd_none]
    simp
  · show (([k] : List String).foldl (fun f k => fupd f k none) s.expirations) k =
      none
    rw [foldl_fupd_none]
    simp
  · set s₂ := kvSet (kvDel s [k]).2 k v none with hs₂
    have htimers : s₂.timers = s.timers := rfl
    show ((s₂.timers.filter fun u => !u.cancelled && decide (u.fireAt ≤ d)).foldl
      (fun f u => fupd f u.key none) s₂.store) k = none
    rw [foldl_fupd_timer_none]
    have hmem : k ∈ (s₂.timers.filter
        fun u => !u.cancelled && decide (u.fireAt ≤ d)).map TimerCb.key := by
      rw [List.mem_map]
      refine ⟨t, ?_, htk⟩
      rw [List.mem_filter, htimers]
      refine ⟨ht, ?_⟩
      rw [hcan]
      simp [hd]
    rw [if_pos hmem]

/-- Closed instance of `del_leaves_timer_pending`: a key set with
`px = 100`, deleted, re-set without `px`, then time advanced past the old
deadline. -/
theorem del_leaves_timer_pending_witness :
    (kvDel (kvSet kvEmpty "k" "v" (some 100)) ["k"]).1 = 1 ∧
    (kvDel (kvSet kvEmpty "k" "v" (some 100)) ["k"]).2.store "k" = none ∧
    (kvDel (kvSet kvEmpty "k" "v" (some 100)) ["k"]).2.expirations "k" = none ∧
    (kvDel (kvSet kvEmpty "k" "v" (some 100)) ["k"]).2.timers =
      (kvSet kvEmpty "k" "v" (some 100)).timers ∧
    (advanceTo
      (kvSet (kvDel (kvSet kvEmpty "k" "v" (some 100)) ["k"]).2 "k" "w" none)
      200).store "k" = none :=
  del_leaves_timer_pending (kvSet kvEmpty "k" "v" (some 100)) "k"
    ⟨0, "k", (0 : ℚ) + 100, false⟩ (List.mem_cons_self _ _) rfl rfl "w" 200
    (by norm_num)

/-! ## JSON parsing for `hmget`/`hmset` (src/localKv.ts)

`LocalKV.hmget` runs `JSON.parse(this.store.get(key) || "\x7b\x7d")` inside a
`try`/`catch` whose `catch` arm returns an empty string per requested field.
The parser below follows the JSON grammar (ECMA-404) so that "the stored
string is not parseable" is decidable; JSON values are exact: numbers are
kept as rationals (the source holds binary doubles), and the rendering of a
non-integer number by `String(...)` is approximated in `ratToString`
(no theorem depends on that branch). -/

/-- A JSON value. -/
inductive JsonVal where
  | null
  | bool (b : Bool)
  | num (q : ℚ)
  | str (s : String)
  | arr (elems : List JsonVal)
  | obj (fields : List (String × JsonVal))
  deriving Repr

/-- Hexadecimal digit value. -/
def hexVal (c : Char) : Option ℕ :=
  if 48 ≤ c.toNat ∧ c.toNat ≤ 57 then some (c.toNat - 48)
  else if 97 ≤ c.toNat ∧ c.toNat ≤ 102 then some (c.toNat - 87)
  else if 65 ≤ c.toNat ∧ c.toNat ≤ 70 then some (c.toNat - 55)
  else none

/-- Body of a JSON string after the opening quote: content and remainder
after the closing quote (fuel-structured). -/
def parseStringBody : ℕ → List Char → Option (List Char × List Char)
  | 0, _ => none
  | _ + 1, [] => none
  | _ + 1, '"' :: rest => some ([], rest)
  | fuel + 1, '\\' :: esc =>
    match esc with
    | '"' :: r => (parseStringBody fuel r).map fun (s, r') => ('"' :: s, r')
    | '\\' :: r => (parseStringBody fuel r).map fun (s, r') => ('\\' :: s, r')
    | '/' :: r => (parseStringBody fuel r).map fun (s, r') => ('/' :: s, r')
    | 'b' :: r =>
      (parseStringBody fuel r).map fun (s, r') => (Char.ofNat 8 :: s, r')
    | 'f' :: r =>
      (parseStringBody fuel r).map fun (s, r') => (Char.ofNat 12 :: s, r')
    | 'n' :: r => (parseStringBody fuel r).map fun (s, r') => ('\n' :: s, r')
    | 'r' :: r =>
      (parseStringBody fuel r).map fun (s, r') => (Char.ofNat 13 :: s, r')
    | 't' :: r => (parseStringBody fuel r).map fun (s, r') => ('\t' :: s, r')
    | 'u' :: h1 :: h2 :: h3 :: h4 :: r =>
      match hexVal h1, hexVal h2, hexVal h3, hexVal h4 with
      | some a, some b, some c, some d =>
        (parseStringBody fuel r).map fun (s, r') =>
          (Char.ofNat (((a * 16 + b) * 16 + c) * 16 + d) :: s, r')
      | _, _, _, _ => none
    | _ => none
  | fuel + 1, c :: rest =>
    if c.toNat < 32 then none
    else (parseStringBody fuel rest).map fun (s, r') => (c :: s, r')

/-- A JSON number: `-?(0|[1-9][0-9]*)(\.[0-9]+)?([eE][+-]?[0-9]+)?`. -/
def parseNumberJson (cs : List Char) : Option (ℚ × List Char) :=
  let (neg, cs₁) : Bool × List Char :=
    match cs with
    | '-' :: rest => (true, rest)
    | _ => (false, cs)
  let intDs := cs₁.takeWhile isDigitChar
  let cs₂ := cs₁.dropWhile isDigitChar
  if intDs.isEmpty then none
  else if intDs.length > 1 ∧ intDs.headI = '0' then none
  else
    let unsigned : ℚ := (digitsToNat intDs : ℚ)
    let withFrac : Option (ℚ × List Char) :=
      match cs₂ with
      | '.' :: cs₃ =>
        let fracDs := cs₃.takeWhile isDigitChar
        if fracDs.isEmpty then none
        else some (unsigned + (digitsToNat fracDs : ℚ) / (10 ^ fracDs.length),
          cs₃.dropWhile isDigitChar)
      | _ => some (unsigned, cs₂)
    match withFrac with
    | none => none
    | some (mantissa, cs₄) =>
      match cs₄ with
      | 'e' :: cs₅ =>
        match (match cs₅ with
          | '+' :: r => some ((false : Bool), r)
          | '-' :: r => some ((true : Bool), r)
          | r => some ((false : Bool), r)) with
        | some (eneg, cs₆) =>
          let expDs := cs₆.takeWhile isDigitChar
          if expDs.isEmpty then none
          else
            let e : ℚ := 10 ^ digitsToNat expDs
            some ((if neg then -mantissa else mantissa) *
              (if eneg then 1 / e else e), cs₆.dropWhile isDigitChar)
        | none => none
      | 'E' :: cs₅ =>
        match (match cs₅ with
          | '+' :: r => some ((false : Bool), r)
          | '-' :: r => some ((true : Bool), r)
          | r => some ((false : Bool), r)) with
        | some (eneg, cs₆) =>
          let expDs := cs₆.takeWhile isDigitChar
          if expDs.isEmpty then none
          else
            let e : ℚ := 10 ^ digitsToNat expDs
            some ((if neg then -mantissa else mantissa) *
              (if eneg then 1 / e else e), cs₆.dropWhile isDigitChar)
        | none => none
      | _ => some (if neg then -mantissa else mantissa, cs₄)

/-- Mode of the combined JSON parser: a value, array items after `[`, or
object members after `{`. -/
inductive JPMode where
  | val
  | items
  | members

/-- Output of the combined JSON parser. -/
inductive JPOut where
  | v (x : JsonVal)
  | vs (xs : List JsonVal)
  | ms (xs : List (String × JsonVal))

/-- The JSON grammar, one fuel-structured function covering values, array
item lists and object member lists. -/
def parseJ : ℕ → JPMode → List Char → Option (JPOut × List Char)
  | 0, _, _ => none
  | fuel + 1, .val, cs =>
    match cs.dropWhile isSpaceJS with
    | 'n' :: 'u' :: 'l' :: 'l' :: rest => some (.v .null, rest)
    | 't' :: 'r' :: 'u' :: 'e' :: rest => some (.v (.bool true), rest)
    | 'f' :: 'a' :: 'l' :: 's' :: 'e' :: rest => some (.v (.bool false), rest)
    | '"' :: rest =>
      (parseStringBody (rest.length + 1) rest).map
        fun (s, r) => (.v (.str (String.mk s)), r)
    | '[' :: rest =>
      match rest.dropWhile isSpaceJS with
      | ']' :: r2 => some (.v (.arr []), r2)
      | _ =>
        match parseJ fuel .items rest with
        | some (.vs es, r) => some (.v (.arr es), r)
        | _ => none
    | '\x7b' :: rest =>
      match rest.dropWhile isSpaceJS with
      | '\x7d' :: r2 => some (.v (.obj []), r2)
      | _ =>
        match parseJ fuel .members rest with
        | some (.ms fs, r) => some (.v (.obj fs), r)
        | _ => none
    | rest => (parseNumberJson rest).map fun (q, r) => (.v (.num q), r)
  | fuel + 1, .items, cs =>
    match parseJ fuel .val cs with
    | some (.v v, r1) =>
      match r1.dropWhile isSpaceJS with
      | ',' :: r2 =>
        match parseJ fuel .items r2 with
        | some (.vs vs, r) => some (.vs (v :: vs), r)
        | _ => none
      | ']' :: r2 => some (.vs [v], r2)
      | _ => none
    | _ => none
  | fuel + 1, .members, cs =>
    match cs.dropWhile isSpaceJS with
    | '"' :: rest =>
      match parseStringBody (rest.length + 1) rest with
      | some (kcs, r1) =>
        match r1.dropWhile isSpaceJS with
        | ':' :: r2 =>
          match parseJ fuel .val r2 with
          | some (.v v, r3) =>
            match r3.dropWhile isSpaceJS with
            | ',' :: r4 =>
              match parseJ fuel .members r4 with
              | some (.ms ms, r) => some (.ms ((String.mk kcs, v) :: ms), r)
              | _ => none
            | '\x7d' :: r4 => some (.ms [(String.mk kcs, v)], r4)
            | _ => none
          | _ => none
        | _ => none
      | none => none
    | _ => none

/-- `JSON.parse`: a full JSON document, with only whitespace allowed after
the value; `none` models the thrown `SyntaxError`. -/
def jsonParse (s : String) : Option JsonVal :=
  match parseJ (2 * s.data.length + 2) .val s.data with
  | some (.v v, rest) =>
    if (rest.dropWhile isSpaceJS).isEmpty then some v else none
  | _ => none

/-- Rendering of a rational by `String(number)`; exact for integers, an
approximation elsewhere (the source renders the closest binary double). -/
def ratToString (q : ℚ) : String :=
  if q.den = 1 then intToString q.num
  else intToString q.num ++ "/" ++ natToString q.den

/-- JavaScript property lookup on a parsed JSON object: with duplicate keys
the later member wins, as in `JSON.parse`. -/
def jsObjGet (fields : List (String × JsonVal)) (k : String) : Option JsonVal :=
  (fields.reverse.find? fun p => p.1 = k).map Prod.snd

/-- `String(x)` for a JSON value. -/
def jsString : JsonVal → String
  | .str s => s
  | .null => "null"
  | .bool true => "true"
  | .bool false => "false"
  | .num q => ratToString q
  | .arr es => String.intercalate "," (es.attach.map fun e => jsString e.1)
  | .obj _ => "[object Object]"
termination_by v => sizeOf v
decreasing_by
  simp_wf
  have := List.sizeOf_lt_of_mem e.2
  omega

/-- `LocalKV.hmget(key, ...fields)`:

    if (!this.store.has(key)) return fields.map(() => "");
    try {
      const data = JSON.parse(this.store.get(key) || "\x7b\x7d");
      return fields.map((field) => data[field] !== undefined ? String(data[field]) : "");
    } catch { return fields.map(() => ""); }

Property access on a non-object parse result is modelled as absent (the
string-index corner of JS strings is out of scope). -/
def kvHmget (s : LocalKV) (key : String) (fields : List String) : List String :=
  match s.store key with
  | none => fields.map fun _ => ""
  | some raw =>
    let doc := if raw = "" then "\x7b\x7d" else raw
    match jsonParse doc with
    | none => fields.map fun _ => ""
    | some data =>
      fields.map fun f =>
        match data with
        | .obj kvs =>
          match jsObjGet kvs f with
          | some v => jsString v
          | none => ""
        | _ => ""

/-- C10: `hmget` on a present key whose stored string is not parseable JSON
returns one empty string per requested field, of the same length, without
raising (the `catch` branch); `hmget` performs no store write at all, so the
stored value is left unchanged. -/
theorem hmget_unparseable (s : LocalKV) (key : String) (fields : List String)
    (v : String) (hv : s.store key = some v) (hp : jsonParse v = none) :
    kvHmget s key fields = fields.map (fun _ => "") ∧
    (kvHmget s key fields).length = fields.length := by
  have hmain : kvHmget s key fields = fields.map fun _ => "" := by
    unfold kvHmget
    rw [hv]
    by_cases hemp : v = ""
    · subst hemp
      show (match jsonParse "\x7b\x7d" with
        | none => fields.map fun _ => ""
        | some data =>
          fields.map fun f =>
            match data with
            | .obj kvs =>
              match jsObjGet kvs f with
              | some v => jsString v
              | none => ""
            | _ => "") = fields.map fun _ => ""
      have hok : jsonParse "\x7b\x7d" = some (JsonVal.obj []) := rfl
      rw [hok]
      rfl
    · show (match jsonParse (if v = "" then "\x7b\x7d" else v) with
        | none => fields.map fun _ => ""
        | some data =>
          fields.map fun f =>
            match data with
            | .obj kvs =>
              match jsObjGet kvs f with
              | some v => jsString v
              | none => ""
            | _ => "") = fields.map fun _ => ""
      rw [if_neg hemp, hp]
  exact ⟨hmain, by rw [hmain, List.length_map]⟩

/-- Closed instance of `hmget_unparseable` on the stored string
`"not json"`. -/
theorem hmget_unparseable_witness :
    kvHmget (kvSet kvEmpty "h" "not json" none) "h" ["a", "b"] =
      (["a", "b"].map fun _ => "") ∧
    (kvHmget (kvSet kvEmpty "h" "not json" none) "h" ["a", "b"]).length =
      (["a", "b"] : List String).length :=
  hmget_unparseable (kvSet kvEmpty "h" "not json" none) "h" ["a", "b"]
    "not json" rfl rfl

/-- Closed instance of `tokenBucket_consumption`: a full bucket admits the
call and persists one token fewer. -/
theorem tokenBucket_consumption_witness :
    (tokenBucketStep 1 10 5 "api" "user" 0 5 0).resp.success = true ∧
    (tokenBucketStep 1 10 5 "api" "user" 0 5 0).tokensToSet =
      (tokenBucketStep 1 10 5 "api" "user" 0 5 0).newTokens - 1 := by
  have h := tokenBucket_consumption 1 10 5 "api" "user" 0 5 0
  have hnew : (tokenBucketStep 1 10 5 "api" "user" 0 5 0).newTokens =
      min (5 : ℚ) (5 + (⌊((0 : ℚ) - 0) / 10⌋ : ℚ) * 1) := rfl
  have hge : (1 : ℚ) ≤ (tokenBucketStep 1 10 5 "api" "user" 0 5 0).newTokens := by
    rw [hnew]
    norm_num
  exact ⟨h.1.mpr hge, h.2.1 hge⟩

/-- Closed instance of `tokenBucket_single_key`. -/
theorem tokenBucket_single_key_witness :
    (tokenBucketStep 1 10 5 "api" "user" 0 5 0).trace =
      [KVEffect.hmget ("api" ++ ":" ++ "user" ++ ":" ++ "bucket")
        ["tokens", "lastRefill"],
       KVEffect.hmset ("api" ++ ":" ++ "user" ++ ":" ++ "bucket")
        [("tokens", (tokenBucketStep 1 10 5 "api" "user" 0 5 0).tokensToSet),
         ("lastRefill", (tokenBucketStep 1 10 5 "api" "user" 0 5 0).refillDate)],
       KVEffect.pexpire ("api" ++ ":" ++ "user" ++ ":" ++ "bucket") (2 * 10)] ∧
    (KVEffect.hmget ("api" ++ ":" ++ "user" ++ ":" ++ "bucket")
      ["tokens", "lastRefill"]).keyOf =
      "api" ++ ":" ++ "user" ++ ":" ++ "bucket" := by
  have h := tokenBucket_single_key 1 10 5 "api" "user" 0 5 0
  refine ⟨h.1, h.2.1 _ ?_⟩
  rw [h.1]
  exact List.mem_cons_self _ _

/-- Closed instance of `slidingWindow_estimate`: one prior call this window,
none in the previous one. -/
theorem slidingWindow_estimate_witness :
    (slidingWindowResponse 5 10 3 1 0).success = true ∧
    (slidingWindowResponse 5 10 3 1 0).remaining =
      max 0 (toFixed1 (5 -
        ((0 : ℤ) * (1 - jsRem 3 10 / 10) + ((1 : ℤ) : ℚ)))) := by
  have h := slidingWindow_estimate 5 10 3 1 0
  have hle : ((0 : ℤ) : ℚ) * (1 - jsRem 3 10 / 10) + ((1 : ℤ) : ℚ) ≤ 5 := by
    norm_num
  exact ⟨h.1.mpr hle, by rw [h.2.2.1 hle]⟩

end Ratelimit
